import Mathlib

set_option maxHeartbeats 1000000
set_option maxRecDepth 10000

/-- Tokens of the GraphQL lexer (src/lexer.rs, enum Token, lines 16-82).
Literal-bearing variants carry the exact matched source slice as a list of
characters, mirroring the borrowed str slices of the Rust type. -/
inductive Token where
  | BraceOpen
  | BraceClose
  | ParenOpen
  | ParenClose
  | BracketOpen
  | BracketClose
  | Colon
  | Equals
  | Exclamation
  | Question
  | Ampersand
  | Pipe
  | Ellipsis
  | BlockStringDelimiter
  | String (s : List Char)
  | Int (s : List Char)
  | Float (s : List Char)
  | Bool (s : List Char)
  | Directive (s : List Char)
  | Variable (s : List Char)
  | Identifier (s : List Char)
  deriving DecidableEq, Repr

/-- Lexing errors (src/lexer.rs, enum LexingError, lines 4-11).
UnterminatedString carries the zero-based byte index of the opening quote. -/
inductive LexingError where
  | UnknownToken
  | UnterminatedString (idx : Nat)
  deriving DecidableEq, Repr

/-- Embeds is_non_punctuator (src/minify.rs lines 64-83): true for every token
that is not one of the listed punctuators; variables and directives count as
punctuators. -/
def is_non_punctuator : Token → Bool
  | .BraceOpen | .BraceClose | .ParenOpen | .ParenClose
  | .BracketOpen | .BracketClose | .Colon | .Equals | .Exclamation
  | .Question | .Ellipsis | .Ampersand | .Pipe
  | .Variable _ | .Directive _ => false
  | _ => true

/-- Embeds needs_space_after_token (src/minify.rs lines 85-90). -/
def needsSpaceAfterToken : Token → Bool
  | .Variable _ | .String _ | .Identifier _ | .Directive _ => true
  | _ => false

/-- Embeds needs_space_before_token (src/minify.rs lines 92-97). -/
def needsSpaceBeforeToken : Token → Bool
  | .Identifier _ | .BlockStringDelimiter | .Ellipsis => true
  | _ => false

/-- Embeds needs_space (src/minify.rs lines 99-107): guarded match on the
previous token, with the two guards tried in order. -/
def needsSpace (curr : Token) (last : Option Token) : Bool :=
  match last with
  | some l =>
    if is_non_punctuator l then is_non_punctuator curr || decide (curr = Token.Ellipsis)
    else if needsSpaceAfterToken l then needsSpaceBeforeToken curr
    else false
  | none => false

/-- Whitespace class of the logos skip regex, ASCII part of a regex
whitespace class, together with the comma (src/lexer.rs line 14). -/
def isGraphQLWsOrComma (c : Char) : Bool :=
  c = ' ' || c = '\t' || c = '\n' || c = '\r' || c = '\x0b' || c = '\x0c' || c = ','

/-- Worker for the ignored-character skip.  The Bool flag records whether the
scan is currently inside a line comment (the alternative of the skip regex
on src/lexer.rs line 14, which runs to the character before the next CR/LF;
the line break itself is then consumed as whitespace by the outer plus). -/
def skipIgnoredGo : Bool → List Char → List Char
  | _, [] => []
  | true, c :: rest =>
    if c = '\n' || c = '\r' then skipIgnoredGo false rest
    else skipIgnoredGo true rest
  | false, c :: rest =>
    if isGraphQLWsOrComma c then skipIgnoredGo false rest
    else if c = '#' then skipIgnoredGo true rest
    else c :: rest

/-- Embeds the logos skip of whitespace, commas and line comments
(src/lexer.rs line 14): drops the maximal ignored prefix. -/
def skipIgnored (l : List Char) : List Char :=
  skipIgnoredGo false l

def isNameStart (c : Char) : Bool := c.isAlpha || c = '_'

def isNameContinue (c : Char) : Bool := c.isAlphanum || c = '_'

/-- Length of a maximal name match at the head of the input, per the
regexes of Directive, Variable and Identifier (src/lexer.rs 74-81). -/
def nameMatchLen (l : List Char) : Option Nat :=
  match l with
  | c :: rest => if isNameStart c then some (1 + (rest.takeWhile isNameContinue).length) else none
  | [] => none

def digitsLen (l : List Char) : Nat :=
  (l.takeWhile Char.isDigit).length

/-- Maximal match length of the Int regex -?[0-9]+ (src/lexer.rs line 65). -/
def intMatchLen (l : List Char) : Option Nat :=
  let p := if l.head? = some '-' then (1, l.tail) else (0, l)
  let d := digitsLen p.2
  if d = 0 then none else some (p.1 + d)

/-- Maximal match length of the Float regex -?[0-9]+\.[0-9]+(e-?[0-9]+)?
(src/lexer.rs line 68); the exponent group is taken only when complete. -/
def floatMatchLen (l : List Char) : Option Nat :=
  let p := if l.head? = some '-' then (1, l.tail) else (0, l)
  let d1 := digitsLen p.2
  if d1 = 0 then none
  else
    let rest1 := p.2.drop d1
    if rest1.head? = some '.' then
      let frac := rest1.tail
      let d2 := digitsLen frac
      if d2 = 0 then none
      else
        let base := p.1 + d1 + 1 + d2
        let rest2 := frac.drop d2
        if rest2.head? = some 'e' then
          let t := rest2.tail
          let q := if t.head? = some '-' then (1, t.tail) else (0, t)
          let d3 := digitsLen q.2
          if d3 = 0 then some base else some (base + 1 + q.1 + d3)
        else some base
    else none

/-- Worker for the single-line string regex "([^"\\]*(\\.[^"\\]*)*)"
(src/lexer.rs line 59), scanning after the opening quote.  The char class
admits any character except quote and backslash (including CR and LF);
a backslash escape consumes the next character, which the regex dot cannot
be a LF; the match closes at the first unescaped quote. -/
def strGo : List Char → Nat → Option Nat
  | [], _ => none
  | c :: rest, n =>
    if c = '"' then some (n + 1)
    else if c = '\\' then
      match rest with
      | [] => none
      | d :: rest2 => if d = '\n' then none else strGo rest2 (n + 2)
    else strGo rest (n + 1)

/-- Match length of the string-literal regex at the head of the input. -/
def stringMatchLen (l : List Char) : Option Nat :=
  if l.head? = some '"' then strGo l.tail 1 else none

/-- Single-character punctuator tokens (src/lexer.rs lines 17-51). -/
def punctTok (c : Char) : Option Token :=
  if c = '{' then some .BraceOpen
  else if c = '}' then some .BraceClose
  else if c = '(' then some .ParenOpen
  else if c = ')' then some .ParenClose
  else if c = '[' then some .BracketOpen
  else if c = ']' then some .BracketClose
  else if c = ':' then some .Colon
  else if c = '=' then some .Equals
  else if c = '!' then some .Exclamation
  else if c = '?' then some .Question
  else if c = '&' then some .Ampersand
  else if c = '|' then some .Pipe
  else none

/-- Lexing at an opening quote (src/lexer.rs lines 56-63): the three-quote
block delimiter wins as the longer match; otherwise the string regex applies
and its callback rejects any matched slice containing a CR or LF as
UnterminatedString carrying the span start. -/
def blockOrString (l : List Char) (pos : Nat) : Except LexingError Token × Nat :=
  if l.take 3 = ['"', '"', '"'] then (.ok .BlockStringDelimiter, 3)
  else
    match stringMatchLen l with
    | some n =>
      if (l.take n).any (fun ch => ch = '\n' || ch = '\r') then
        (.error (.UnterminatedString pos), n)
      else (.ok (.String (l.take n)), n)
    | none => (.error .UnknownToken, 1)

/-- Lexing at a digit or minus sign: Float (longer when it matches) wins
over Int (src/lexer.rs lines 65-69). -/
def numTok (l : List Char) : Except LexingError Token × Nat :=
  match floatMatchLen l with
  | some n => (.ok (.Float (l.take n)), n)
  | none =>
    match intMatchLen l with
    | some n => (.ok (.Int (l.take n)), n)
    | none => (.error .UnknownToken, 1)

/-- Lexing at an at-sign: the Directive regex (src/lexer.rs line 74). -/
def atTok (l : List Char) : Except LexingError Token × Nat :=
  match nameMatchLen l.tail with
  | some n => (.ok (.Directive (l.take (n + 1))), n + 1)
  | none => (.error .UnknownToken, 1)

/-- Lexing at a dollar sign: the Variable regex (src/lexer.rs line 77). -/
def dollarTok (l : List Char) : Except LexingError Token × Nat :=
  match nameMatchLen l.tail with
  | some n => (.ok (.Variable (l.take (n + 1))), n + 1)
  | none => (.error .UnknownToken, 1)

/-- Lexing at a name start: a maximal name run; at equal length the Bool
regex true|false outranks the Identifier class by logos priority
(src/lexer.rs lines 71-81). -/
def nameTok (l : List Char) : Except LexingError Token × Nat :=
  match nameMatchLen l with
  | some n =>
    let run := l.take n
    if run = ['t', 'r', 'u', 'e'] ∨ run = ['f', 'a', 'l', 's', 'e'] then (.ok (.Bool run), n)
    else (.ok (.Identifier run), n)
  | none => (.error .UnknownToken, 1)

/-- One longest-match lexing step on the (already skipped) input, dispatching
on the first character; pos is the absolute offset of the input's head, used
only by the UnterminatedString error.  Returns none exactly at end of input;
any unmatched position yields UnknownToken (logos error = LexingError with
its Default, src/lexer.rs lines 6-15). -/
def tokenAt (l : List Char) (pos : Nat) : Option (Except LexingError Token × Nat) :=
  match l with
  | [] => none
  | c :: _ =>
    some (
      match punctTok c with
      | some t => (.ok t, 1)
      | none =>
        if c = '.' then
          if l.take 3 = ['.', '.', '.'] then (.ok .Ellipsis, 3) else (.error .UnknownToken, 1)
        else if c = '"' then blockOrString l pos
        else if c = '-' || c.isDigit then numTok l
        else if c = '@' then atTok l
        else if c = '$' then dollarTok l
        else nameTok l)

/-- Whitespace in the GraphQL block-string sense (src/block_string.rs 96-98). -/
def isGqlWhitespace (c : Char) : Bool :=
  c = ' ' || c = '\t'

/-- Embeds leading_whitespace (src/block_string.rs 100-102): number of
leading space/tab characters. -/
def leadingWhitespace (l : List Char) : Nat :=
  (l.takeWhile isGqlWhitespace).length

/-- A line is blank when its leading whitespace run covers it entirely, the
negation of the indent < line.len() test of src/block_string.rs line 69. -/
def isBlankLine (l : List Char) : Bool :=
  leadingWhitespace l == l.length

/-- Index of the first non-blank line: the value first_non_empty_line holds
after the scan loop of dedent_block_lines_mut (src/block_string.rs 66-77). -/
def firstNonBlankIdx : List (List Char) → Option Nat
  | [] => none
  | x :: xs => if isBlankLine x then (firstNonBlankIdx xs).map (· + 1) else some 0

/-- Index of the last non-blank line: the value last_non_empty_line holds
after the scan loop of dedent_block_lines_mut (src/block_string.rs 66-77). -/
def lastNonBlankIdx : List (List Char) → Option Nat
  | [] => none
  | x :: xs =>
    match lastNonBlankIdx xs with
    | some j => some (j + 1)
    | none => if isBlankLine x then none else some 0

/-- Running minimum with none playing the role of the usize::MAX sentinel. -/
def optMin (m : Nat) : Option Nat → Option Nat
  | none => some m
  | some k => some (min m k)

/-- The common_indent accumulated by the scan loop of dedent_block_lines_mut
(src/block_string.rs 62-77): minimum indent over non-blank lines other than
the first; none models the untouched usize::MAX sentinel. -/
def commonIndentAux (i : Nat) : List (List Char) → Option Nat
  | [] => none
  | x :: xs =>
    let rest := commonIndentAux (i + 1) xs
    if i ≠ 0 && !isBlankLine x then optMin (leadingWhitespace x) rest else rest

def commonIndent (lines : List (List Char)) : Option Nat :=
  commonIndentAux 0 lines

/-- The per-line mutation of dedent_block_lines_mut (src/block_string.rs
81-87): a line longer than the common indent loses its first common-indent
characters (split_off), any other line is cleared; with the usize::MAX
sentinel (none) the length test is false and the line is cleared. -/
def mutLine (c : Option Nat) (l : List Char) : List Char :=
  match c with
  | some m => if m < l.length then l.drop m else []
  | none => []

/-- Embeds dedent_block_lines_mut (src/block_string.rs 61-94) as a function:
mutate every line but the first, then drain the lines before the first
non-blank line and after the last non-blank line; when every line is blank,
clear the sequence. -/
def dedentBlockLines (lines : List (List Char)) : List (List Char) :=
  match firstNonBlankIdx lines, lastNonBlankIdx lines with
  | some s, some e =>
    let c := commonIndent lines
    let mutated :=
      match lines with
      | [] => []
      | l0 :: rest => l0 :: rest.map (mutLine c)
    (mutated.drop s).take (e + 1 - s)
  | _, _ => []

/-- lines.join with a single newline (src/lexer.rs line 113). -/
def joinNL : List (List Char) → List Char
  | [] => []
  | [x] => x
  | x :: xs => x ++ '\n' :: joinNL xs

/-- The replacement of every raw triple quote by a backslash and three
quotes, leftmost-first and non-overlapping, embedding the str::replace call
of print_block_string (src/block_string.rs line 26). -/
def escapeTripleQuotes : List Char → List Char
  | '"' :: '"' :: '"' :: rest => '\\' :: '"' :: '"' :: '"' :: escapeTripleQuotes rest
  | c :: rest => c :: escapeTripleQuotes rest
  | [] => []

/-- Strips one trailing carriage return, as the line iterator does for a
newline-terminated chunk. -/
def stripCR (l : List Char) : List Char :=
  if l.getLast? = some '\r' then l.dropLast else l

/-- Worker embedding Rust str::lines (src/block_string.rs line 27): chunks
split at LF, a trailing CR removed from every LF-terminated chunk, and no
empty chunk after a final LF. -/
def rustLinesGo : List Char → List Char → List (List Char)
  | cur, [] => if cur.isEmpty then [] else [cur.reverse]
  | cur, c :: rest =>
    if c = '\n' then stripCR cur.reverse :: rustLinesGo [] rest
    else rustLinesGo (c :: cur) rest

def rustLines (s : List Char) : List (List Char) :=
  rustLinesGo [] s

/-- Embeds the force_leading_new_line condition of print_block_string
(src/block_string.rs 29-33): more than one line and every line after the
first is empty or starts with space or tab. -/
def forceLeadingNewLine (lines : List (List Char)) : Bool :=
  decide (1 < lines.length) &&
    lines.tail.all (fun line =>
      match line.head? with
      | some ch => line.isEmpty || isGqlWhitespace ch
      | none => true)

/-- Embeds print_block_string (src/block_string.rs 24-59): escape raw triple
quotes, split into lines, emit the opening delimiter, an optional forced
leading newline, every line followed by a newline, drop the trailing newline
unless a trailing quote (not part of an escaped triple quote) or a trailing
backslash forces it, and emit the closing delimiter. -/
def printBlockString (input : List Char) : List Char :=
  let str := escapeTripleQuotes input
  let lines := rustLines str
  let hasTrailingTripleQuotes := (['\\', '"', '"', '"'] : List Char).isSuffixOf str
  let hasTrailingQuote := (['"'] : List Char).isSuffixOf str && !hasTrailingTripleQuotes
  let hasTrailingSlash := (['\\'] : List Char).isSuffixOf str
  let forceTrailingNewline := hasTrailingQuote || hasTrailingSlash
  let r1 :=
    lines.foldl (fun acc line => acc ++ line ++ ['\n'])
      (['"', '"', '"'] ++ (if forceLeadingNewLine lines then ['\n'] else []))
  let r2 := if !forceTrailingNewline && decide (r1.getLast? = some '\n') then r1.dropLast else r1
  r2 ++ ['"', '"', '"']

/-- Result of the block-string sub-scan: the raw line sequence, the number
of characters consumed from the remainder, and whether the closing triple
quote was found (the while loop of src/lexer.rs 92-104 breaking on
TripleQuote rather than ending at end of input). -/
structure BlockScanResult where
  lines : List (List Char)
  consumed : Nat
  found : Bool
  deriving DecidableEq, Repr

/-- Embeds the scan loop of parse_block_string (src/lexer.rs 85-110) over
the BlockStringToken lexer (src/block_string.rs 3-22), with logos longest
match: an escaped triple quote (4 chars) beats a lone backslash, the closing
triple quote (3 chars) beats a single quote, CRLF beats CR; a text run is
consumed character by character with the same effect as the maximal run.
The final pending line is pushed when non-empty (src/lexer.rs 106-108). -/
def blockScanGo : List Char → List Char → List (List Char) → Nat → BlockScanResult
  | [], cur, acc, n => ⟨if cur.isEmpty then acc else acc ++ [cur], n, false⟩
  | '\\' :: '"' :: '"' :: '"' :: rest, cur, acc, n =>
    blockScanGo rest (cur ++ ['"', '"', '"']) acc (n + 4)
  | '\\' :: rest, cur, acc, n => blockScanGo rest (cur ++ ['\\']) acc (n + 1)
  | '"' :: '"' :: '"' :: _, cur, acc, n => ⟨if cur.isEmpty then acc else acc ++ [cur], n + 3, true⟩
  | '"' :: rest, cur, acc, n => blockScanGo rest (cur ++ ['"']) acc (n + 1)
  | '\r' :: '\n' :: rest, cur, acc, n => blockScanGo rest [] (acc ++ [cur]) (n + 2)
  | '\r' :: rest, cur, acc, n => blockScanGo rest [] (acc ++ [cur]) (n + 1)
  | '\n' :: rest, cur, acc, n => blockScanGo rest [] (acc ++ [cur]) (n + 1)
  | c :: rest, cur, acc, n => blockScanGo rest (cur ++ [c]) acc (n + 1)

def blockScan (l : List Char) : BlockScanResult :=
  blockScanGo l [] [] 0

/-- The full parse_block_string result (src/lexer.rs 112-113): dedent the
scanned lines in place, join with newlines and re-print. -/
def parseBlockString (scan : BlockScanResult) : List Char :=
  printBlockString (joinNL (dedentBlockLines scan.lines))

/-- Embeds the minify driver loop (src/minify.rs 39-62).  The input suffix
still to scan is passed explicitly; origLen is the length of the whole
input, so that origLen minus the suffix length is the absolute offset used
by UnterminatedString.  On a lexer error the buffered output is discarded
and the error returned as is.  A block-string delimiter token triggers the
sub-scan on the remainder and the cursor advances by the consumed count
(lexer.bump); any other token appends its exact source slice.  Fuel bounds
the recursion; every token consumes at least one character, so an initial
fuel of input length + 1 never runs out. -/
def minifyLoop (origLen : Nat) : Nat → List Char → Option Token → List Char → Except LexingError (List Char)
  | 0, _, _, acc => .ok acc
  | fuel + 1, l, last, acc =>
    let rest := skipIgnored l
    match tokenAt rest (origLen - rest.length) with
    | none => .ok acc
    | some (.error e, _) => .error e
    | some (.ok t, n) =>
      let sp := if needsSpace t last then [' '] else ([] : List Char)
      match t with
      | .BlockStringDelimiter =>
        let scan := blockScan (rest.drop n)
        minifyLoop origLen fuel (rest.drop (n + scan.consumed)) (some t)
          (acc ++ sp ++ parseBlockString scan)
      | _ => minifyLoop origLen fuel (rest.drop n) (some t) (acc ++ sp ++ rest.take n)

/-- Embeds minify (src/minify.rs 39-62) on a character list. -/
def minify (s : List Char) : Except LexingError (List Char) :=
  minifyLoop s.length (s.length + 1) s none []

/-- The token sequence minify drives: the same scan as minifyLoop but
collecting the tokens (kind together with its exact literal slice) instead
of printing, with block-string bodies skipped exactly as the driver does. -/
def tokenStreamLoop (origLen : Nat) : Nat → List Char → List Token → Except LexingError (List Token)
  | 0, _, acc => .ok acc
  | fuel + 1, l, acc =>
    let rest := skipIgnored l
    match tokenAt rest (origLen - rest.length) with
    | none => .ok acc
    | some (.error e, _) => .error e
    | some (.ok t, n) =>
      match t with
      | .BlockStringDelimiter =>
        let scan := blockScan (rest.drop n)
        tokenStreamLoop origLen fuel (rest.drop (n + scan.consumed)) (acc ++ [t])
      | _ => tokenStreamLoop origLen fuel (rest.drop n) (acc ++ [t])

def tokenStream (s : List Char) : Except LexingError (List Token) :=
  tokenStreamLoop s.length (s.length + 1) s []

/-- The spec's trailing-newline condition for the block-string re-print
(design section 4.2, step 4): the text, once raw triple quotes have been
escaped by step 1, ends with a literal quote character that is not part of
an escaped-triple-quote sequence, or ends with a trailing backslash. -/
def specKeepsTrailingNewline (s : List Char) : Bool :=
  let e := escapeTripleQuotes s
  ((['"'] : List Char).isSuffixOf e && !((['\\', '"', '"', '"'] : List Char).isSuffixOf e)) ||
    (['\\'] : List Char).isSuffixOf e

theorem afterSet_iff (t : Token) : needsSpaceAfterToken t = true ↔
    (∃ s, t = Token.Variable s) ∨ (∃ s, t = Token.String s) ∨
      (∃ s, t = Token.Identifier s) ∨ (∃ s, t = Token.Directive s) := by
  cases t <;> simp [needsSpaceAfterToken]

theorem beforeSet_iff (t : Token) : needsSpaceBeforeToken t = true ↔
    (∃ s, t = Token.Identifier s) ∨ t = Token.BlockStringDelimiter ∨ t = Token.Ellipsis := by
  cases t <;> simp [needsSpaceBeforeToken]

/-- C4: a single space is emitted before the current token C exactly when the
previous token P exists and is a non-punctuator and C is a non-punctuator or
the ellipsis, or otherwise P is a variable, string literal, identifier or
directive and C is an identifier, block-string delimiter or ellipsis; in
every other case, including at stream start, no space is emitted. -/
theorem needs_space_characterization (c : Token) (p : Option Token) :
    needsSpace c p = true ↔
      ∃ last, p = some last ∧
        ((is_non_punctuator last = true ∧ (is_non_punctuator c = true ∨ c = Token.Ellipsis)) ∨
         (is_non_punctuator last = false ∧
           ((∃ s, last = Token.Variable s) ∨ (∃ s, last = Token.String s) ∨
             (∃ s, last = Token.Identifier s) ∨ (∃ s, last = Token.Directive s)) ∧
           ((∃ s, c = Token.Identifier s) ∨ c = Token.BlockStringDelimiter ∨ c = Token.Ellipsis))) := by
  cases p with
  | none => simp [needsSpace]
  | some last =>
    cases last <;> cases c <;>
      simp [needsSpace, is_non_punctuator, needsSpaceAfterToken, needsSpaceBeforeToken]

/-- Witness for the C4 characterization at a concrete pair: an identifier
followed by an integer literal gets one separating space. -/
theorem needs_space_characterization_witness :
    needsSpace (Token.Int ['1']) (some (Token.Identifier ['a'])) = true :=
  (needs_space_characterization (Token.Int ['1']) (some (Token.Identifier ['a']))).mpr
    ⟨Token.Identifier ['a'], rfl, Or.inl ⟨rfl, Or.inl rfl⟩⟩

/-- C3 counterexample: the minified form of a variable followed by the
ellipsis keeps one space between two tokens that are both punctuators under
the section 4.3 classification, so two adjacent punctuator tokens are not
always unseparated. -/
theorem punctuator_pair_separated_counterexample :
    minify ("$a ...".data) = .ok ("$a ...".data) ∧
      tokenStream ("$a ...".data) = .ok [Token.Variable ['$', 'a'], Token.Ellipsis] ∧
      is_non_punctuator (Token.Variable ['$', 'a']) = false ∧
      is_non_punctuator Token.Ellipsis = false :=
  ⟨rfl, rfl, rfl, rfl⟩

/-- C3 amended: two adjacent non-punctuators always get exactly one space;
two adjacent punctuators are never separated except when the first is a
variable or a directive and the second is the ellipsis, in which case one
space is emitted. -/
theorem punctuator_spacing_amended (curr prev : Token) :
    (is_non_punctuator prev = true → is_non_punctuator curr = true →
      needsSpace curr (some prev) = true) ∧
    (is_non_punctuator prev = false → is_non_punctuator curr = false →
      (needsSpace curr (some prev) = true ↔
        ((∃ s, prev = Token.Variable s) ∨ (∃ s, prev = Token.Directive s)) ∧
          curr = Token.Ellipsis)) := by
  cases prev <;> cases curr <;>
    simp [needsSpace, is_non_punctuator, needsSpaceAfterToken, needsSpaceBeforeToken]

/-- Witness for the amended C3 statement: two identifiers are separated, and
a variable followed by the ellipsis is separated. -/
theorem punctuator_spacing_amended_witness :
    needsSpace (Token.Identifier ['b']) (some (Token.Identifier ['a'])) = true ∧
      needsSpace Token.Ellipsis (some (Token.Variable ['$', 'a'])) = true :=
  ⟨(punctuator_spacing_amended (Token.Identifier ['b']) (Token.Identifier ['a'])).1 rfl rfl,
    ((punctuator_spacing_amended Token.Ellipsis (Token.Variable ['$', 'a'])).2 rfl rfl).mpr
      ⟨Or.inl ⟨['$', 'a'], rfl⟩, rfl⟩⟩

/-- C1: lexical equivalence fails on the code.  The valid list value input
containing a variable followed by an integer minifies with no separating
space (needs_space is false when the previous token is a variable and the
current one an Int), so the two tokens fuse: the output re-tokenizes to a
single longer variable, not to the original (kind, literal) sequence.  The
crate documentation claims functional equivalence with graphql-js
stripIgnoredCharacters, which preserves the token stream here. -/
theorem lexical_equivalence_failure :
    minify ("[$v, 1]".data) = .ok ("[$v1]".data) ∧
      tokenStream ("[$v, 1]".data) =
        .ok [Token.BracketOpen, Token.Variable ['$', 'v'], Token.Int ['1'], Token.BracketClose] ∧
      tokenStream ("[$v1]".data) =
        .ok [Token.BracketOpen, Token.Variable ['$', 'v', '1'], Token.BracketClose] :=
  ⟨rfl, rfl, rfl⟩

/-- C2: idempotence fails on the code.  A variable followed by a float in a
list value minifies with no separating space, and the fused output does not
even re-tokenize: minify of the first output is an UnknownToken error, so
minify applied twice is not minify applied once. -/
theorem idempotence_failure :
    minify ("[$v, 1.5]".data) = .ok ("[$v1.5]".data) ∧
      minify ("[$v1.5]".data) = .error .UnknownToken :=
  ⟨rfl, rfl⟩

/-- C5 counterexample: a matched single-line string whose only carriage
return is backslash-escaped is still rejected as UnterminatedString, because
the callback tests the whole matched slice for CR and LF without regard to
escaping; the claim instead promises acceptance as a String token. -/
theorem escaped_cr_string_counterexample :
    stringMatchLen ['"', '\\', '\r', '"'] = some 4 ∧
      blockOrString ['"', '\\', '\r', '"'] 0 = (.error (.UnterminatedString 0), 4) :=
  ⟨rfl, rfl⟩

/-- C5 amended: a matched double-quote-delimited string literal is rejected
as UnterminatedString carrying the offset of its opening quote exactly when
the matched raw text contains a carriage return or line feed anywhere,
escaped or not, and is accepted as a String token carrying the matched slice
otherwise. -/
theorem string_rejection_characterization (l : List Char) (pos n : Nat)
    (h : stringMatchLen l = some n) (hq : l.take 3 ≠ ['"', '"', '"']) :
    (blockOrString l pos = (.error (.UnterminatedString pos), n) ↔
      ∃ ch ∈ l.take n, ch = '\n' ∨ ch = '\r') ∧
    (blockOrString l pos = (.ok (.String (l.take n)), n) ↔
      ∀ ch ∈ l.take n, ¬(ch = '\n' ∨ ch = '\r')) := by
  rw [blockOrString, if_neg hq, h]
  dsimp only
  by_cases hc : (l.take n).any (fun ch => ch = '\n' || ch = '\r')
  · rw [if_pos hc]
    simp only [List.any_eq_true, Bool.or_eq_true, decide_eq_true_eq] at hc
    constructor
    · simp [hc]
    · simp only [Prod.mk.injEq]
      constructor
      · intro hcontra
        exact absurd hcontra.1 (by simp)
      · intro hall
        obtain ⟨ch, hmem, hor⟩ := hc
        exact absurd hor (hall ch hmem)
  · rw [if_neg hc]
    simp only [List.any_eq_true, Bool.or_eq_true, decide_eq_true_eq] at hc
    push_neg at hc
    constructor
    · simp only [Prod.mk.injEq]
      constructor
      · intro hcontra
        exact absurd hcontra.1 (by simp)
      · intro ⟨ch, hmem, hor⟩
        rcases hc ch hmem with ⟨hn, hr⟩
        cases hor with
        | inl hh => exact (hn hh).elim
        | inr hh => exact (hr hh).elim
    · constructor
      · intro _ ch hmem hor
        rcases hc ch hmem with ⟨hn, hr⟩
        cases hor with
        | inl hh => exact hn hh
        | inr hh => exact hr hh
      · intro _
        rfl

/-- Witness for the amended C5 statement: an unescaped line feed between
quotes is matched by the string regex and rejected with the opening-quote
offset, and a plain string is accepted. -/
theorem string_rejection_characterization_witness :
    blockOrString ['"', '\n', '"'] 7 = (.error (.UnterminatedString 7), 3) ∧
      blockOrString ['"', 'a', '"'] 0 = (.ok (.String ['"', 'a', '"']), 3) :=
  ⟨(string_rejection_characterization ['"', '\n', '"'] 7 3 rfl (by decide)).1.mpr
      ⟨'\n', by decide, Or.inl rfl⟩,
    (string_rejection_characterization ['"', 'a', '"'] 0 3 rfl (by decide)).2.mpr
      (by decide)⟩

/-- C6: the driver aborts on the first tokenizer error.  At any loop state
whose next lexing step yields an error, the loop returns exactly that error
without scanning further; and an error result never depends on the buffered
output accumulated so far, so the buffer is discarded and the error value
(which by its type carries no output text) is returned unchanged.  Together
with the single return point this means at most one error per invocation. -/
theorem minify_halts_on_first_error (origLen fuel n : Nat) (l : List Char)
    (last : Option Token) (acc acc2 : List Char) (e : LexingError) :
    (tokenAt (skipIgnored l) (origLen - (skipIgnored l).length) = some (.error e, n) →
      minifyLoop origLen (fuel + 1) l last acc = .error e) ∧
    (minifyLoop origLen fuel l last acc = .error e →
      minifyLoop origLen fuel l last acc2 = .error e) := by
  constructor
  · intro h
    simp only [minifyLoop]
    rw [h]
  · induction fuel generalizing l last acc acc2 with
    | zero =>
      intro h
      simp [minifyLoop] at h
    | succ fuel ih =>
      intro h
      rw [minifyLoop] at h ⊢
      cases htok : tokenAt (skipIgnored l) (origLen - (skipIgnored l).length) with
      | none =>
        rw [htok] at h
        simp at h
      | some pr =>
        obtain ⟨r, m⟩ := pr
        rw [htok] at h
        cases r with
        | error e2 => exact h
        | ok t => cases t <;> (dsimp only at h ⊢; exact ih _ _ _ _ h)

/-- Witness for C6 at a concrete state: an unknown character aborts the loop
with UnknownToken, whatever output is buffered. -/
theorem minify_halts_on_first_error_witness :
    minifyLoop 1 1 ['%'] none [] = .error .UnknownToken ∧
      minifyLoop 1 1 ['%'] none ['q'] = .error .UnknownToken := by
  have h1 := (minify_halts_on_first_error 1 0 1 ['%'] none [] ['q'] .UnknownToken).1 rfl
  exact ⟨h1, (minify_halts_on_first_error 1 1 1 ['%'] none [] ['q'] .UnknownToken).2 h1⟩

theorem firstNonBlankIdx_eq_none_iff (L : List (List Char)) :
    firstNonBlankIdx L = none ↔ ∀ l ∈ L, isBlankLine l = true := by
  induction L with
  | nil => simp [firstNonBlankIdx]
  | cons x xs ih =>
    by_cases hb : isBlankLine x <;>
      simp [firstNonBlankIdx, hb, ih, Option.map_eq_none']

theorem lastNonBlankIdx_eq_none_iff (L : List (List Char)) :
    lastNonBlankIdx L = none ↔ ∀ l ∈ L, isBlankLine l = true := by
  induction L with
  | nil => simp [lastNonBlankIdx]
  | cons x xs ih =>
    cases hl : lastNonBlankIdx xs with
    | some j =>
      simp only [lastNonBlankIdx, hl]
      constructor
      · intro hcontra
        exact absurd hcontra (by simp)
      · intro hall
        have hn : lastNonBlankIdx xs = none :=
          ih.mpr (fun l hm => hall l (List.mem_cons_of_mem _ hm))
        rw [hl] at hn
        exact absurd hn (by simp)
    | none =>
      by_cases hb : isBlankLine x
      · simp [lastNonBlankIdx, hl, hb, List.forall_mem_cons]
        exact ih.mp hl
      · simp [lastNonBlankIdx, hl, hb, List.forall_mem_cons]

theorem first_le_last (L : List (List Char)) (s e : Nat)
    (hf : firstNonBlankIdx L = some s) (hl : lastNonBlankIdx L = some e) : s ≤ e := by
  induction L generalizing s e with
  | nil => simp [firstNonBlankIdx] at hf
  | cons x xs ih =>
    by_cases hb : isBlankLine x
    · rw [firstNonBlankIdx, if_pos hb] at hf
      obtain ⟨s2, hs2, rfl⟩ := Option.map_eq_some'.mp hf
      rw [lastNonBlankIdx] at hl
      cases hlx : lastNonBlankIdx xs with
      | none =>
        have : ∀ l ∈ xs, isBlankLine l = true := (lastNonBlankIdx_eq_none_iff xs).mp hlx
        have : firstNonBlankIdx xs = none := (firstNonBlankIdx_eq_none_iff xs).mpr this
        rw [this] at hs2
        exact absurd hs2 (by simp)
      | some j =>
        rw [hlx] at hl
        dsimp only at hl
        have hej : e = j + 1 := by
          have := Option.some.inj hl
          omega
        have := ih s2 j hs2 hlx
        omega
    · rw [firstNonBlankIdx, if_neg hb] at hf
      have : s = 0 := by
        have := Option.some.inj hf
        omega
      omega

theorem last_lt_length (L : List (List Char)) (e : Nat)
    (hl : lastNonBlankIdx L = some e) : e < L.length := by
  induction L generalizing e with
  | nil => simp [lastNonBlankIdx] at hl
  | cons x xs ih =>
    rw [lastNonBlankIdx] at hl
    cases hlx : lastNonBlankIdx xs with
    | none =>
      rw [hlx] at hl
      dsimp only at hl
      by_cases hb : isBlankLine x
      · rw [if_pos hb] at hl
        exact absurd hl (by simp)
      · rw [if_neg hb] at hl
        have : e = 0 := (Option.some.inj hl).symm
        simp [this]
    | some j =>
      rw [hlx] at hl
      dsimp only at hl
      have : e = j + 1 := by
        have := Option.some.inj hl
        omega
      have := ih j hlx
      simp [this, List.length_cons]
      omega

theorem getElem?_drop_add (l : List α) (s j : Nat) : (l.drop s)[j]? = l[s + j]? := by
  induction s generalizing l with
  | zero => simp
  | succ s ih =>
    cases l with
    | nil => simp
    | cons a t =>
      rw [List.drop_succ_cons, ih t]
      have harith : s + 1 + j = (s + j) + 1 := by omega
      rw [harith, List.getElem?_cons_succ]

/-- C7 counterexample: a single-line block string with non-whitespace
content has no line other than the first that is not entirely whitespace,
yet dedent keeps the first line instead of producing an empty sequence. -/
theorem dedent_single_line_counterexample :
    dedentBlockLines [['a']] = [['a']] ∧ dedentBlockLines [['a']] ≠ [] :=
  ⟨rfl, by decide⟩

/-- C7 amended: the dedent step produces an empty line sequence exactly when
every line of the block string, the first included, is entirely whitespace;
a sequence with any non-whitespace line, a single-line one included, keeps
at least that line. -/
theorem dedent_empty_iff (lines : List (List Char)) :
    dedentBlockLines lines = [] ↔ ∀ l ∈ lines, isBlankLine l = true := by
  constructor
  · intro h
    by_contra hall
    have hf : firstNonBlankIdx lines ≠ none := by
      intro hn
      exact hall ((firstNonBlankIdx_eq_none_iff lines).mp hn)
    have hg : lastNonBlankIdx lines ≠ none := by
      intro hn
      exact hall ((lastNonBlankIdx_eq_none_iff lines).mp hn)
    obtain ⟨s, hs⟩ := Option.ne_none_iff_exists'.mp hf
    obtain ⟨e, he⟩ := Option.ne_none_iff_exists'.mp hg
    have hse := first_le_last lines s e hs he
    have hel := last_lt_length lines e he
    cases lines with
    | nil => simp [firstNonBlankIdx] at hs
    | cons l0 rest =>
      rw [dedentBlockLines, hs, he] at h
      dsimp only at h
      have hlen := congrArg List.length h
      simp only [List.length_take, List.length_drop, List.length_map, List.length_cons,
        List.length_nil] at hlen
      simp only [List.length_cons] at hel
      omega
  · intro hall
    have h1 := (firstNonBlankIdx_eq_none_iff lines).mpr hall
    have h2 := (lastNonBlankIdx_eq_none_iff lines).mpr hall
    rw [dedentBlockLines, h1, h2]

/-- Witness for the amended C7 statement: an all-whitespace sequence is
cleared. -/
theorem dedent_empty_iff_witness : dedentBlockLines [[' '], []] = [] :=
  (dedent_empty_iff [[' '], []]).mpr (by decide)

/-- C8 counterexample: a whitespace-only line strictly between the first and
last non-blank lines is not cleared to the empty string; it is dedented by
the common indent like any other line and keeps its remaining spaces. -/
theorem interior_blank_line_counterexample :
    dedentBlockLines [['a'], [' ', ' ', ' '], [' ', 'b']] = [['a'], [' ', ' '], ['b']] ∧
      (dedentBlockLines [['a'], [' ', ' ', ' '], [' ', 'b']])[1]? = some [' ', ' '] :=
  ⟨rfl, rfl⟩

/-- C8 amended: a whitespace-only line strictly between the first and last
non-blank lines is never removed by dedent; it stays at its position and is
rewritten by the common-indent mutation, which clears it to empty only when
its length does not exceed the common indent and otherwise drops exactly the
first common-indent characters. -/
theorem interior_blank_line_dedent (lines : List (List Char)) (li : List Char) (i s e : Nat)
    (hf : firstNonBlankIdx lines = some s) (hl : lastNonBlankIdx lines = some e)
    (hsi : s < i) (hie : i < e) (hli : lines[i]? = some li) (hblank : isBlankLine li = true) :
    (dedentBlockLines lines).length = e + 1 - s ∧
      (dedentBlockLines lines)[i - s]? = some (mutLine (commonIndent lines) li) := by
  have hel := last_lt_length lines e hl
  cases lines with
  | nil => simp [firstNonBlankIdx] at hf
  | cons l0 rest =>
    rw [dedentBlockLines, hf, hl]
    dsimp only
    constructor
    · simp only [List.length_take, List.length_drop, List.length_map, List.length_cons]
      simp only [List.length_cons] at hel
      omega
    · rw [List.getElem?_take_of_lt (by omega), getElem?_drop_add]
      have hidx : s + (i - s) = i := by omega
      rw [hidx]
      obtain ⟨j, rfl⟩ : ∃ j, i = j + 1 := ⟨i - 1, by omega⟩
      rw [List.getElem?_cons_succ, List.getElem?_map]
      rw [List.getElem?_cons_succ] at hli
      rw [hli]
      rfl

/-- Witness for the amended C8 statement at a concrete block: the interior
blank line survives at its position, cleared by the mutation. -/
theorem interior_blank_line_dedent_witness :
    (dedentBlockLines [['a'], [' '], [' ', 'b']]).length = 2 + 1 - 0 ∧
      (dedentBlockLines [['a'], [' '], [' ', 'b']])[1 - 0]? =
        some (mutLine (commonIndent [['a'], [' '], [' ', 'b']]) [' ']) :=
  interior_blank_line_dedent [['a'], [' '], [' ', 'b']] [' '] 1 0 2 rfl rfl
    (by omega) (by omega) rfl rfl

theorem cons_append_append_singleton (a : α) (l1 l2 : List α) (x : α) :
    a :: (l1 ++ (l2 ++ [x])) = (a :: (l1 ++ l2)) ++ [x] := by
  simp

theorem foldl_push_eq (L : List (List Char)) (init : List Char) :
    L.foldl (fun acc line => acc ++ line ++ ['\n']) init =
      init ++ L.foldl (fun acc line => acc ++ line ++ ['\n']) [] := by
  induction L generalizing init with
  | nil => simp
  | cons x xs ih =>
    simp only [List.foldl_cons]
    rw [ih (init ++ x ++ ['\n']), ih (List.nil ++ x ++ ['\n'])]
    simp [List.append_assoc]

theorem body_eq_joinNL (L : List (List Char)) (h : L ≠ []) :
    L.foldl (fun acc line => acc ++ line ++ ['\n']) [] = joinNL L ++ ['\n'] := by
  induction L with
  | nil => exact absurd rfl h
  | cons x xs ih =>
    cases xs with
    | nil => simp [joinNL]
    | cons y ys =>
      rw [List.foldl_cons, foldl_push_eq, ih (by simp)]
      simp [joinNL, List.append_assoc]

theorem rustLinesGo_ne_nil (cur l : List Char) (h : l ≠ [] ∨ cur ≠ []) :
    rustLinesGo cur l ≠ [] := by
  induction l generalizing cur with
  | nil =>
    rcases h with h | h
    · exact absurd rfl h
    · cases cur with
      | nil => exact absurd rfl h
      | cons c cs => simp [rustLinesGo]
  | cons c rest ih =>
    by_cases hc : c = '\n'
    · simp [rustLinesGo, hc]
    · rw [rustLinesGo, if_neg hc]
      exact ih (c :: cur) (Or.inr (by simp))

/-- Structure of the re-printed block string: opening delimiter, the forced
leading newline when every non-first line starts blank, the dedented lines
joined by single newlines, one final newline exactly when the trailing
condition holds, and the closing delimiter. -/
theorem printBlockString_eq (s : List Char) :
    printBlockString s =
      ['"', '"', '"'] ++
        (if forceLeadingNewLine (rustLines (escapeTripleQuotes s)) then ['\n'] else []) ++
        joinNL (rustLines (escapeTripleQuotes s)) ++
        (if specKeepsTrailingNewline s then ['\n'] else []) ++ ['"', '"', '"'] := by
  simp only [printBlockString, specKeepsTrailingNewline]
  cases hL : rustLines (escapeTripleQuotes s) with
  | nil =>
    have he0 : escapeTripleQuotes s = [] := by
      by_contra hne
      exact rustLinesGo_ne_nil [] (escapeTripleQuotes s) (Or.inl hne) hL
    simp only [he0]
    decide
  | cons x xs =>
    have hbody : (x :: xs).foldl (fun acc line => acc ++ line ++ ['\n'])
        (['"', '"', '"'] ++ (if forceLeadingNewLine (x :: xs) then ['\n'] else [])) =
        (['"', '"', '"'] ++ (if forceLeadingNewLine (x :: xs) then ['\n'] else []) ++
          joinNL (x :: xs)) ++ ['\n'] := by
      rw [foldl_push_eq, body_eq_joinNL (x :: xs) (by simp)]
      simp [List.append_assoc]
    rw [hbody, List.getLast?_concat]
    rcases Bool.eq_false_or_eq_true ((['"'] : List Char).isSuffixOf (escapeTripleQuotes s) &&
        !((['\\', '"', '"', '"'] : List Char).isSuffixOf (escapeTripleQuotes s)) ||
        (['\\'] : List Char).isSuffixOf (escapeTripleQuotes s)) with hf | hf
    · simp [hf, List.append_assoc]
    · simp [hf]
      rw [cons_append_append_singleton, List.dropLast_concat]
      simp [List.append_assoc]

/-- Every re-printed block string ends with the closing triple-quote
delimiter. -/
theorem printBlockString_ends_close (s : List Char) :
    ['"', '"', '"'] <:+ printBlockString s := by
  simp only [printBlockString]
  exact ⟨_, rfl⟩

theorem blockScanGo_not_found_consumed (l cur : List Char) (acc : List (List Char)) (n : Nat)
    (h : (blockScanGo l cur acc n).found = false) :
    (blockScanGo l cur acc n).consumed = n + l.length := by
  induction l, cur, acc, n using blockScanGo.induct <;>
    (simp_all [blockScanGo]; try omega)

/-- C9: in the block-string re-print the final newline before the closing
delimiter is kept exactly when the escaped text (after step 1 replaces every
raw triple quote by a backslash-escaped one) ends with a literal quote that
is not part of an escaped-triple-quote sequence, or ends with a trailing
backslash; in every other case the one trailing newline left by the per-line
emission loop is dropped, so the printed literal is the opening delimiter,
the optional forced leading newline, the lines joined by single newlines
with no trailing newline, and the closing delimiter. -/
theorem trailing_newline_policy (s : List Char) :
    printBlockString s =
      ['"', '"', '"'] ++
        (if forceLeadingNewLine (rustLines (escapeTripleQuotes s)) then ['\n'] else []) ++
        joinNL (rustLines (escapeTripleQuotes s)) ++
        (if specKeepsTrailingNewline s then ['\n'] else []) ++ ['"', '"', '"'] :=
  printBlockString_eq s

/-- C10: when the sub-scan after a block-string delimiter token never finds
a closing triple quote, the scan consumes the whole remaining input, the
driver still returns Ok two steps later (the remainder is exhausted), and
the emitted output ends with a closing triple-quote delimiter, so the
output's block string is closed even though the input's was not. -/
theorem unterminated_block_string_ok (origLen fuel : Nat) (l : List Char)
    (last : Option Token) (acc : List Char)
    (h1 : tokenAt (skipIgnored l) (origLen - (skipIgnored l).length) =
      some (.ok .BlockStringDelimiter, 3))
    (h2 : (blockScan ((skipIgnored l).drop 3)).found = false) :
    (blockScan ((skipIgnored l).drop 3)).consumed = ((skipIgnored l).drop 3).length ∧
      ∃ out, minifyLoop origLen (fuel + 2) l last acc = .ok out ∧
        ['"', '"', '"'] <:+ out := by
  have hcons : (blockScan ((skipIgnored l).drop 3)).consumed = ((skipIgnored l).drop 3).length := by
    have := blockScanGo_not_found_consumed ((skipIgnored l).drop 3) [] [] 0
      (by simpa [blockScan] using h2)
    simpa [blockScan] using this
  refine ⟨hcons,
    acc ++ (if needsSpace Token.BlockStringDelimiter last then [' '] else []) ++
      parseBlockString (blockScan ((skipIgnored l).drop 3)), ?_, ?_⟩
  · have hrest : (skipIgnored l).drop (3 + (blockScan ((skipIgnored l).drop 3)).consumed) = [] := by
      rw [hcons, ← List.drop_drop]
      exact List.drop_length _
    rw [minifyLoop, h1]
    dsimp only
    rw [hrest]
    rfl
  · exact List.IsSuffix.trans (printBlockString_ends_close _) (List.suffix_append _ _)

/-- Witness for C10 at a concrete input: three quotes followed by a lone
character and end of input. -/
theorem unterminated_block_string_ok_witness :
    (blockScan ((skipIgnored ("\"\"\"a".data)).drop 3)).consumed =
        ((skipIgnored ("\"\"\"a".data)).drop 3).length ∧
      ∃ out, minifyLoop 4 2 ("\"\"\"a".data) none [] = .ok out ∧
        ['"', '"', '"'] <:+ out :=
  unterminated_block_string_ok 4 0 ("\"\"\"a".data) none [] rfl rfl

example : tokenAt ("@a1".data) 0 = some (.ok (.Directive ['@', 'a', '1']), 3) := rfl

example : tokenAt ("1.5x".data) 0 = some (.ok (.Float ['1', '.', '5']), 3) := rfl

example : tokenAt ("true ".data) 0 = some (.ok (.Bool ['t', 'r', 'u', 'e']), 4) := rfl

example : tokenAt ("truex".data) 0 = some (.ok (.Identifier ['t', 'r', 'u', 'e', 'x']), 5) := rfl

example : tokenAt ("...".data) 0 = some (.ok .Ellipsis, 3) := rfl

example : tokenAt ("\"a\\\"b\"".data) 0 = some (.ok (.String ("\"a\\\"b\"".data)), 6) := rfl

example : tokenAt ("\"\n\"".data) 5 = some (.error (.UnterminatedString 5), 3) := rfl

example : skipIgnored ("#comment\n, \n1".data) = ['1'] := rfl

example : minify ("[,)".data) = .ok ("[)".data) := rfl

example : minify ("[\r,1".data) = .ok ("[1".data) := rfl

example : minify ("a ...".data) = .ok ("a ...".data) := rfl

example : minify ("1 ... ...".data) = .ok ("1 ......".data) := rfl

example : minify ("\"\" \"\"".data) = .ok ("\"\" \"\"".data) := rfl

example : minify ("a \t 1".data) = .ok ("a 1".data) := rfl

example : minify ("\",|\"".data) = .ok ("\",|\"".data) := rfl

example : minify ("\"\"\",|\"\"\"".data) = .ok ("\"\"\",|\"\"\"".data) := rfl

example : minify ("\"\"\" a \"\"\"".data) = .ok ("\"\"\" a \"\"\"".data) := rfl

example : minify ("\"\"\"\n\"\"\"".data) = .ok ("\"\"\"\"\"\"".data) := rfl

example : minify ("\"\"\"a\r\n\nb\"\"\"".data) = .ok ("\"\"\"a\n\nb\"\"\"".data) := rfl

example : minify ("\"\"\"\\\n\"\"\"".data) = .ok ("\"\"\"\\\n\"\"\"".data) := rfl

example : minify ("\"\"\"\"\n\"\"\"".data) = .ok ("\"\"\"\"\n\"\"\"".data) := rfl

example : minify ("\"\"\"\\\"\"\"\n\"\"\"".data) = .ok ("\"\"\"\\\"\"\"\"\"\"".data) := rfl

example : minify ("\"\"\"\n a\n b\"\"\"".data) = .ok ("\"\"\"a\nb\"\"\"".data) := rfl

example : minify ("\"\"\"\na\n b\nc\"\"\"".data) = .ok ("\"\"\"a\n b\nc\"\"\"".data) := rfl

example : dedentBlockLines [[], "  a".data, " b".data] = [" a".data, "b".data] := rfl

example : dedentBlockLines ["a".data, " ".data, "  b".data] = ["a".data, [], "b".data] := rfl

example : printBlockString ("one liner".data) = ("\"\"\"one liner\"\"\"".data) := rfl

example : printBlockString ("triple quotation \"\"\"".data) =
    ("\"\"\"triple quotation \\\"\"\"\"\"\"".data) := rfl

example : printBlockString ("backslash \\".data) = ("\"\"\"backslash \\\n\"\"\"".data) := rfl

example : printBlockString ("no indent\n with indent".data) =
    ("\"\"\"\nno indent\n with indent\"\"\"".data) := rfl
